import Mathlib

/-!
Verification development for the AgentFish/NeuralNetwork repository
(a header-only C++ feedforward neural-network trainer built on Eigen).

Eigen dynamic vectors (Eigen::VectorXd) are embedded as lists of reals and
dynamic matrices (Eigen::MatrixXd) as lists of rows.  Numeric code on
IEEE doubles is modelled over the reals; the one place where the program's
behaviour depends on IEEE special values (CrossEntropy::calculate, which
filters non-finite terms) is modelled with an explicit value domain `FVal`
carrying infinities and NaN.  C++ exceptions become the `Except NErr` monad,
and an out-of-range Eigen element access (undefined behaviour in the
program) is modelled as the error `NErr.outOfBounds`.
-/

namespace NeuralNetwork

/-- Error kinds surfaced by the embedded code: the two `std::range_error`
throws of Network::train, the `std::logic_error` of
Softmax::calculate_derivative, and out-of-range Eigen element access. -/
inductive NErr : Type
  | inputShapeMismatch
  | outputShapeMismatch
  | unimplementedMethod
  | outOfBounds
deriving DecidableEq

/-- Eigen::VectorXd as a list of reals. -/
abbrev RVec := List ℝ

/-- Eigen::MatrixXd as a list of rows. -/
abbrev RMat := List RVec

/-- Dot product of two vectors. -/
def dotL (v w : RVec) : ℝ := (List.zipWith (· * ·) v w).sum

/-- Componentwise vector sum. -/
def addL (v w : RVec) : RVec := List.zipWith (· + ·) v w

/-- Scalar times vector. -/
def smulL (c : ℝ) (v : RVec) : RVec := v.map (fun x => c * x)

/-- Componentwise matrix sum. -/
def addM (a b : RMat) : RMat := List.zipWith addL a b

/-- Scalar times matrix. -/
def smulM (c : ℝ) (m : RMat) : RMat := m.map (smulL c)

/-- Matrix times vector: row i of the result is row i of the matrix dotted
with the vector. -/
def matVecL (m : RMat) (v : RVec) : RVec := m.map (fun row => dotL row v)

/-- Outer product `d * aᵀ` as appearing in Layer::feedBackward
(`delta * a.transpose()`): row i is `d i • a`. -/
def outerL (d a : RVec) : RMat := d.map (fun di => smulL di a)

/-- Transposed matrix times vector, `mᵀ · d`, computed as the linear
combination of the rows of `m` with coefficients `d`
(Layer::feedBackward's `weight.transpose() * delta`). -/
def matTvecL : RMat → RVec → RVec
  | [row], [di] => smulL di row
  | row :: m', di :: d' => addL (smulL di row) (matTvecL m' d')
  | _, _ => []

/-- The two activation-function variants of the repository
(ActivationFunctionFactory.h). -/
inductive ActivationFunction : Type
  | logistic
  | softmax
deriving DecidableEq

/-- Logistic::calculate on one component:
the C++ code computes `((-z).exp() + 1).cwiseInverse()`. -/
noncomputable def logisticFn (z : ℝ) : ℝ := (Real.exp (-z) + 1)⁻¹

/-- ActivationFunction::calculate.  Logistic applies `logisticFn`
elementwise (Logistic.h); Softmax computes `exp(z) / exp(z).sum()`
(Softmax.h, without max-subtraction stabilization). -/
noncomputable def ActivationFunction.calculate : ActivationFunction → RVec → RVec
  | .logistic, z => z.map logisticFn
  | .softmax, z =>
      let zExp := z.map Real.exp
      zExp.map (fun e => e / zExp.sum)

/-- ActivationFunction::calculate_derivative.  Logistic recomputes
`f = calculate z` and returns `f ⊙ (1 - f)` (Logistic.h); Softmax throws
`std::logic_error("Softmax::calculate_derivative : unimplemented method")`
(Softmax.h), modelled as `NErr.unimplementedMethod`. -/
noncomputable def ActivationFunction.calculate_derivative :
    ActivationFunction → RVec → Except NErr RVec
  | .logistic, z =>
      let f := ActivationFunction.calculate .logistic z
      .ok (f.map (fun v => v * (1 - v)))
  | .softmax, _ => .error .unimplementedMethod

/-- A single network layer (Layer.h): neuron count, activation function,
bias vector and weight matrix. -/
structure Layer : Type where
  size : ℕ
  activationFunction : ActivationFunction
  bias : RVec
  weight : RMat

/-- Layer::getSize. -/
def Layer.getSize (l : Layer) : ℕ := l.size

/-- Layer::feedForward (single-output overload):
`activation.calculate(weight * x + bias)`. -/
noncomputable def Layer.feedForward (l : Layer) (x : RVec) : RVec :=
  l.activationFunction.calculate (addL (matVecL l.weight x) l.bias)

/-- Layer::feedForward (two-output overload): returns the activation
together with the weighted input `z = weight * x + bias`. -/
noncomputable def Layer.feedForwardZ (l : Layer) (x : RVec) : RVec × RVec :=
  let z := addL (matVecL l.weight x) l.bias
  (l.activationFunction.calculate z, z)

/-- Layer::feedBackward: from the incoming error `deltaPrevious`, the lower
layer's activation `a` and this layer's weighted input `z`, compute
`delta = deltaPrevious ⊙ activation.calculate_derivative z` and return
`(delta_nabla_b, delta_nabla_w, new deltaPrevious)
 = (delta, delta * aᵀ, weightᵀ * delta)`.
The activation derivative can throw (Softmax), hence the Except monad. -/
noncomputable def Layer.feedBackward (l : Layer) (deltaPrevious a z : RVec) :
    Except NErr (RVec × RMat × RVec) := do
  let sigmaDerivative ← l.activationFunction.calculate_derivative z
  let delta := List.zipWith (· * ·) deltaPrevious sigmaDerivative
  pure (delta, outerL delta a, matTvecL l.weight delta)

/-- Layer::updateBiasWeight:
`bias += learningRateRatio * nabla_b` and
`weight += learningRateRatio * nabla_w + regularizationRatio * weight`. -/
def Layer.updateBiasWeight (l : Layer) (nabla_b : RVec) (nabla_w : RMat)
    (learningRateRatio regularizationRatio : ℝ) : Layer :=
  { l with
    bias := addL l.bias (smulL learningRateRatio nabla_b)
    weight := addM l.weight
      (addM (smulM learningRateRatio nabla_w) (smulM regularizationRatio l.weight)) }

/-- IEEE-double values including the special values produced and consumed
by CrossEntropy::calculate, which relies on `std::log(0) = -inf`,
`0 * inf = NaN` and `std::isfinite`.  Rounding plays no role in the claims,
so finite values are exact reals. -/
inductive FVal : Type
  | fin (v : ℝ)
  | pinf
  | ninf
  | nan

/-- IEEE negation. -/
noncomputable def fneg : FVal → FVal
  | .fin v => .fin (-v)
  | .pinf => .ninf
  | .ninf => .pinf
  | .nan => .nan

/-- IEEE product of a finite real with a value:
`0 * (±inf) = NaN`, otherwise the sign rules of infinity. -/
noncomputable def fmulR (a : ℝ) : FVal → FVal
  | .fin v => .fin (a * v)
  | .pinf => if a = 0 then .nan else if 0 < a then .pinf else .ninf
  | .ninf => if a = 0 then .nan else if 0 < a then .ninf else .pinf
  | .nan => .nan

/-- IEEE subtraction: `inf - inf = NaN`, NaN propagates. -/
noncomputable def fsub : FVal → FVal → FVal
  | .fin a, .fin b => .fin (a - b)
  | .fin _, .pinf => .ninf
  | .fin _, .ninf => .pinf
  | .pinf, .fin _ => .pinf
  | .ninf, .fin _ => .ninf
  | .pinf, .pinf => .nan
  | .ninf, .ninf => .nan
  | .pinf, .ninf => .pinf
  | .ninf, .pinf => .ninf
  | .nan, _ => .nan
  | _, .nan => .nan

/-- IEEE natural logarithm: `log 0 = -inf`, `log` of a negative is NaN. -/
noncomputable def flog (x : ℝ) : FVal :=
  if x = 0 then .ninf else if x < 0 then .nan else .fin (Real.log x)

/-- The filter `std::isfinite(v) ? v : 0.0` applied by
CrossEntropy::calculate to each term before summing. -/
def sanitizeF : FVal → ℝ
  | .fin v => v
  | _ => 0

/-- One component of CrossEntropy::calculate before filtering:
the C++ code computes `-t ⊙ log(x) - (1 - t) ⊙ log(1 - x)`. -/
noncomputable def ceTerm (xv tv : ℝ) : FVal :=
  fsub (fneg (fmulR tv (flog xv))) (fmulR (1 - tv) (flog (1 - xv)))

/-- The two cost-function variants of the repository
(CostFunctionFactory.h). -/
inductive CostFunction : Type
  | quadratic
  | crossentropy
deriving DecidableEq

/-- CostFunction::calculate.  Quadratic computes `0.5 * ||t - x||²`
(QuadraticCostFunction.h); CrossEntropy computes the componentwise terms
of `-t ⊙ ln(x) - (1-t) ⊙ ln(1-x)`, replaces every non-finite component by
0 and sums (CrossEntropy.h). -/
noncomputable def CostFunction.calculate : CostFunction → RVec → RVec → ℝ
  | .quadratic, x, t => 0.5 * (List.zipWith (fun ti xi => (ti - xi) ^ 2) t x).sum
  | .crossentropy, x, t =>
      (List.zipWith (fun xi ti => sanitizeF (ceTerm xi ti)) x t).sum

/-- CostFunction::calculate_derivative.  Quadratic returns `x - t`;
CrossEntropy returns `(x - t) / (x ⊙ (1 - x))` componentwise, unclamped
(division by zero at saturated outputs is real-junk here where the C++
produces ±inf; no claim depends on those points). -/
noncomputable def CostFunction.calculate_derivative : CostFunction → RVec → RVec → RVec
  | .quadratic, x, t => List.zipWith (fun xi ti => xi - ti) x t
  | .crossentropy, x, t => List.zipWith (fun xi ti => (xi - ti) / (xi * (1 - xi))) x t

/-! Helper lemmas about indexing the list-based linear algebra. -/

theorem getD_zipWith {α β γ : Type} (f : α → β → γ) (l1 : List α) (l2 : List β)
    (i : ℕ) (d1 : α) (d2 : β) (d3 : γ) (h1 : i < l1.length) (h2 : i < l2.length) :
    (List.zipWith f l1 l2).getD i d3 = f (l1.getD i d1) (l2.getD i d2) := by
  have hz : i < (List.zipWith f l1 l2).length := by
    simpa [List.length_zipWith] using ⟨h1, h2⟩
  rw [List.getD_eq_getElem _ _ hz, List.getD_eq_getElem _ _ h1,
    List.getD_eq_getElem _ _ h2, List.getElem_zipWith]

theorem getD_map {α β : Type} (f : α → β) (l : List α) (i : ℕ) (d1 : α) (d2 : β)
    (h : i < l.length) :
    (l.map f).getD i d2 = f (l.getD i d1) := by
  have hm : i < (l.map f).length := by simpa using h
  rw [List.getD_eq_getElem _ _ hm, List.getD_eq_getElem _ _ h, List.getElem_map]

theorem addL_getD (v w : RVec) (i : ℕ) (hv : i < v.length) (hw : i < w.length) :
    (addL v w).getD i 0 = v.getD i 0 + w.getD i 0 :=
  getD_zipWith _ v w i 0 0 0 hv hw

theorem addL_length (v w : RVec) : (addL v w).length = min v.length w.length :=
  List.length_zipWith _ _ _

theorem addM_getD (a b : RMat) (i : ℕ) (h1 : i < a.length) (h2 : i < b.length) :
    (addM a b).getD i [] = addL (a.getD i []) (b.getD i []) :=
  getD_zipWith addL a b i [] [] [] h1 h2

theorem addM_length (a b : RMat) : (addM a b).length = min a.length b.length :=
  List.length_zipWith _ _ _

theorem smulM_getD (c : ℝ) (m : RMat) (i : ℕ) (h : i < m.length) :
    (smulM c m).getD i [] = smulL c (m.getD i []) :=
  getD_map _ m i [] [] h

theorem smulM_length (c : ℝ) (m : RMat) : (smulM c m).length = m.length :=
  List.length_map _ _

theorem smulL_length (c : ℝ) (v : RVec) : (smulL c v).length = v.length := by
  simp [smulL]

theorem smulL_getD (c : ℝ) (v : RVec) (i : ℕ) (h : i < v.length) :
    (smulL c v).getD i 0 = c * v.getD i 0 :=
  getD_map _ v i 0 0 h

theorem matTvecL_length (m : RMat) (d : RVec) (p : ℕ) (hne : m ≠ [])
    (hlen : m.length = d.length) (hrect : ∀ row ∈ m, row.length = p) :
    (matTvecL m d).length = p := by
  induction m generalizing d with
  | nil => exact absurd rfl hne
  | cons row m' ih =>
    cases m' with
    | nil =>
      match d, hlen with
      | [di], _ =>
        simpa [matTvecL, smulL] using hrect row (by simp)
    | cons row2 m'' =>
      match d, hlen with
      | di :: d', hlen =>
        have hlen' : (row2 :: m'').length = d'.length := by
          simpa using hlen
        have hrect' : ∀ r ∈ row2 :: m'', r.length = p := fun r hr =>
          hrect r (List.mem_cons_of_mem _ hr)
        have ihlen := ih d' (by simp) hlen' hrect'
        have hrow : row.length = p := hrect row (by simp)
        simp [matTvecL, addL, List.length_zipWith, smulL_length, hrow, ihlen]

theorem matTvecL_getD (m : RMat) (d : RVec) (p j : ℕ) (hne : m ≠ [])
    (hlen : m.length = d.length) (hrect : ∀ row ∈ m, row.length = p)
    (hj : j < p) :
    (matTvecL m d).getD j 0 =
      ∑ i ∈ Finset.range m.length, (m.getD i []).getD j 0 * d.getD i 0 := by
  induction m generalizing d with
  | nil => exact absurd rfl hne
  | cons row m' ih =>
    cases m' with
    | nil =>
      match d, hlen with
      | [di], _ =>
        have hrow : row.length = p := hrect row (by simp)
        rw [show matTvecL [row] [di] = smulL di row from rfl,
          smulL_getD di row j (hrow ▸ hj)]
        simp [mul_comm]
    | cons row2 m'' =>
      match d, hlen with
      | di :: d', hlen =>
        have hlen' : (row2 :: m'').length = d'.length := by simpa using hlen
        have hrect' : ∀ r ∈ row2 :: m'', r.length = p := fun r hr =>
          hrect r (List.mem_cons_of_mem _ hr)
        have hrow : row.length = p := hrect row (by simp)
        have hstep : matTvecL (row :: row2 :: m'') (di :: d')
            = addL (smulL di row) (matTvecL (row2 :: m'') d') := rfl
        have hsum : ∑ i ∈ Finset.range (row :: row2 :: m'').length,
            ((row :: row2 :: m'').getD i []).getD j 0 * (di :: d').getD i 0
            = row.getD j 0 * di +
              ∑ i ∈ Finset.range (row2 :: m'').length,
                ((row2 :: m'').getD i []).getD j 0 * d'.getD i 0 := by
          rw [List.length_cons (α := RVec) row (row2 :: m''), Finset.sum_range_succ']
          simp only [List.getD_cons_succ, List.getD_cons_zero]
          ring
        rw [hstep, addL_getD _ _ j (by simpa [smulL_length, hrow] using hj)
            (by rw [matTvecL_length (row2 :: m'') d' p (by simp) hlen' hrect']; exact hj),
          smulL_getD di row j (hrow ▸ hj),
          ih d' (by simp) hlen' hrect', hsum]
        ring

/-- C1: Layer::feedBackward implements the chain-rule step of
backpropagation: given the incoming error `deltaNext`, the previous
activation `a` and the weighted input `z`, when the activation derivative
yields `sd` it returns the bias gradient `delta = deltaNext ⊙ sd`, the
weight gradient `delta ⊗ a` (outer product), and the propagated error
`weightᵀ · delta`; the formula does not depend on the layer's position in
the network (the statement quantifies over arbitrary layers). -/
theorem feedBackward_chain_rule (l : Layer) (deltaNext a z sd : RVec)
    (hsd : l.activationFunction.calculate_derivative z = .ok sd)
    (hlen : deltaNext.length = sd.length)
    (hw : l.weight.length = deltaNext.length)
    (hwne : l.weight ≠ [])
    (p : ℕ) (hrect : ∀ row ∈ l.weight, row.length = p) :
    ∃ gradBias gradWeight deltaPrev,
      l.feedBackward deltaNext a z = .ok (gradBias, gradWeight, deltaPrev) ∧
      gradBias.length = deltaNext.length ∧
      (∀ i < deltaNext.length,
        gradBias.getD i 0 = deltaNext.getD i 0 * sd.getD i 0) ∧
      gradWeight.length = deltaNext.length ∧
      (∀ i < deltaNext.length, ∀ j < a.length,
        (gradWeight.getD i []).getD j 0 = gradBias.getD i 0 * a.getD j 0) ∧
      deltaPrev.length = p ∧
      (∀ j < p, deltaPrev.getD j 0 =
        ∑ i ∈ Finset.range l.weight.length,
          (l.weight.getD i []).getD j 0 * gradBias.getD i 0) := by
  have hdlen : (List.zipWith (· * ·) deltaNext sd).length = deltaNext.length := by
    simp [List.length_zipWith, hlen]
  refine ⟨List.zipWith (· * ·) deltaNext sd,
    outerL (List.zipWith (· * ·) deltaNext sd) a,
    matTvecL l.weight (List.zipWith (· * ·) deltaNext sd), ?_, hdlen, ?_, ?_, ?_, ?_, ?_⟩
  · simp [Layer.feedBackward, hsd]
  · intro i hi
    exact getD_zipWith _ _ _ i 0 0 0 hi (hlen ▸ hi)
  · simp [outerL, hdlen]
  · intro i hi j hj
    have hi' : i < (List.zipWith (· * ·) deltaNext sd).length := hdlen ▸ hi
    rw [show (outerL (List.zipWith (· * ·) deltaNext sd) a).getD i []
        = smulL ((List.zipWith (· * ·) deltaNext sd).getD i 0) a from
      getD_map _ _ i 0 [] hi']
    exact smulL_getD _ a j hj
  · exact matTvecL_length l.weight _ p hwne (by rw [hw, hdlen]) hrect
  · intro j hj
    exact matTvecL_getD l.weight _ p j hwne (by rw [hw, hdlen]) hrect hj

/-- Witness for C1 at a concrete logistic layer. -/
theorem feedBackward_chain_rule_witness :
    ∃ gradBias gradWeight deltaPrev,
      ({ size := 1, activationFunction := .logistic, bias := [0],
         weight := [[1, 2]] } : Layer).feedBackward [1] [1, 1]
          [0] = .ok (gradBias, gradWeight, deltaPrev) ∧
      gradBias.length = 1 ∧
      (∀ i < 1, gradBias.getD i 0 =
        ([(1 : ℝ)]).getD i 0 *
          ((ActivationFunction.calculate .logistic [0]).map
            (fun v => v * (1 - v))).getD i 0) ∧
      gradWeight.length = 1 ∧
      (∀ i < 1, ∀ j < ([(1 : ℝ), 1]).length,
        (gradWeight.getD i []).getD j 0 = gradBias.getD i 0 * ([(1 : ℝ), 1]).getD j 0) ∧
      deltaPrev.length = 2 ∧
      (∀ j < 2, deltaPrev.getD j 0 =
        ∑ i ∈ Finset.range 1,
          (([[(1 : ℝ), 2]]).getD i []).getD j 0 * gradBias.getD i 0) :=
  feedBackward_chain_rule
    { size := 1, activationFunction := .logistic, bias := [0], weight := [[1, 2]] }
    [1] [1, 1] [0]
    ((ActivationFunction.calculate .logistic [0]).map (fun v => v * (1 - v)))
    rfl (by simp [ActivationFunction.calculate]) rfl (by simp) 2 (by simp)

/-- C3: Layer::updateBiasWeight adds `lrRatio * gradBias` to the bias and
`lrRatio * gradWeight + regRatio * weight` to the weight matrix; the
regularization term touches only the weights, as the bias formula is free
of `regRatio`. -/
theorem updateBiasWeight_update_rule (l : Layer) (nabla_b : RVec) (nabla_w : RMat)
    (lrRatio regRatio : ℝ)
    (hb : nabla_b.length = l.bias.length)
    (hwlen : nabla_w.length = l.weight.length)
    (hrow : ∀ i < l.weight.length,
      (nabla_w.getD i []).length = (l.weight.getD i []).length) :
    (l.updateBiasWeight nabla_b nabla_w lrRatio regRatio).bias.length = l.bias.length ∧
    (∀ i < l.bias.length,
      (l.updateBiasWeight nabla_b nabla_w lrRatio regRatio).bias.getD i 0 =
        l.bias.getD i 0 + lrRatio * nabla_b.getD i 0) ∧
    (l.updateBiasWeight nabla_b nabla_w lrRatio regRatio).weight.length = l.weight.length ∧
    (∀ i < l.weight.length, ∀ j < (l.weight.getD i []).length,
      ((l.updateBiasWeight nabla_b nabla_w lrRatio regRatio).weight.getD i []).getD j 0 =
        (l.weight.getD i []).getD j 0 + lrRatio * (nabla_w.getD i []).getD j 0
          + regRatio * (l.weight.getD i []).getD j 0) ∧
    (l.updateBiasWeight nabla_b nabla_w lrRatio regRatio).size = l.size ∧
    (l.updateBiasWeight nabla_b nabla_w lrRatio regRatio).activationFunction
      = l.activationFunction := by
  refine ⟨?_, ?_, ?_, ?_, rfl, rfl⟩
  · simp [Layer.updateBiasWeight, addL, List.length_zipWith, smulL_length, hb]
  · intro i hi
    rw [show (l.updateBiasWeight nabla_b nabla_w lrRatio regRatio).bias
        = addL l.bias (smulL lrRatio nabla_b) from rfl,
      addL_getD _ _ i hi (by rw [smulL_length, hb]; exact hi),
      smulL_getD _ _ i (hb ▸ hi)]
  · simp [Layer.updateBiasWeight, addM_length, smulM_length, hwlen]
  · intro i hi j hj
    have hni : i < nabla_w.length := hwlen ▸ hi
    have hrowi := hrow i hi
    have hlen1 : i < (smulM lrRatio nabla_w).length := by
      rw [smulM_length]; exact hni
    have hlen2 : i < (smulM regRatio l.weight).length := by
      rw [smulM_length]; exact hi
    have hinnerLen : i < (addM (smulM lrRatio nabla_w) (smulM regRatio l.weight)).length := by
      rw [addM_length]; exact lt_min hlen1 hlen2
    have e1 : (l.updateBiasWeight nabla_b nabla_w lrRatio regRatio).weight.getD i []
        = addL (l.weight.getD i [])
            (addL (smulL lrRatio (nabla_w.getD i []))
              (smulL regRatio (l.weight.getD i []))) := by
      rw [show (l.updateBiasWeight nabla_b nabla_w lrRatio regRatio).weight
          = addM l.weight (addM (smulM lrRatio nabla_w) (smulM regRatio l.weight)) from rfl,
        addM_getD _ _ i hi hinnerLen, addM_getD _ _ i hlen1 hlen2,
        smulM_getD _ _ i hni, smulM_getD _ _ i hi]
    have hj3 : j < (smulL lrRatio (nabla_w.getD i [])).length := by
      rw [smulL_length, hrowi]; exact hj
    have hj4 : j < (smulL regRatio (l.weight.getD i [])).length := by
      rw [smulL_length]; exact hj
    have hj2 : j < (addL (smulL lrRatio (nabla_w.getD i []))
        (smulL regRatio (l.weight.getD i []))).length := by
      rw [addL_length]; exact lt_min hj3 hj4
    rw [e1, addL_getD _ _ j hj hj2, addL_getD _ _ j hj3 hj4,
      smulL_getD _ _ j (hrowi ▸ hj), smulL_getD _ _ j hj]
    ring

/-- Witness for C3 at a concrete layer and concrete gradients. -/
theorem updateBiasWeight_update_rule_witness :
    (({ size := 1, activationFunction := .logistic, bias := [1],
        weight := [[2]] } : Layer).updateBiasWeight [3] [[4]] 5 7).bias.length = 1 ∧
    (∀ i < 1,
      (({ size := 1, activationFunction := .logistic, bias := [1],
          weight := [[2]] } : Layer).updateBiasWeight [3] [[4]] 5 7).bias.getD i 0 =
        ([(1 : ℝ)]).getD i 0 + 5 * ([(3 : ℝ)]).getD i 0) ∧
    (({ size := 1, activationFunction := .logistic, bias := [1],
        weight := [[2]] } : Layer).updateBiasWeight [3] [[4]] 5 7).weight.length = 1 ∧
    (∀ i < 1, ∀ j < (([[(2 : ℝ)]]).getD i []).length,
      ((({ size := 1, activationFunction := .logistic, bias := [1],
           weight := [[2]] } : Layer).updateBiasWeight [3] [[4]] 5 7).weight.getD i []).getD j 0 =
        (([[(2 : ℝ)]]).getD i []).getD j 0 + 5 * (([[(4 : ℝ)]]).getD i []).getD j 0
          + 7 * (([[(2 : ℝ)]]).getD i []).getD j 0) ∧
    (({ size := 1, activationFunction := .logistic, bias := [1],
        weight := [[2]] } : Layer).updateBiasWeight [3] [[4]] 5 7).size = 1 ∧
    (({ size := 1, activationFunction := .logistic, bias := [1],
        weight := [[2]] } : Layer).updateBiasWeight [3] [[4]] 5 7).activationFunction
      = .logistic :=
  updateBiasWeight_update_rule
    { size := 1, activationFunction := .logistic, bias := [1], weight := [[2]] }
    [3] [[4]] 5 7 rfl rfl
    (by intro i hi
        have h0 : i = 0 := Nat.lt_one_iff.mp hi
        subst h0
        rfl)

/-- C7: Softmax::calculate_derivative always fails with the
"unimplemented method" logic error and never returns a value, and
Layer::feedBackward on a layer whose activation is Softmax propagates
exactly this failure to its caller. -/
theorem softmax_derivative_unimplemented :
    (∀ z : RVec,
      ActivationFunction.calculate_derivative .softmax z = .error .unimplementedMethod) ∧
    (∀ l : Layer, l.activationFunction = .softmax →
      ∀ deltaNext a z : RVec,
        l.feedBackward deltaNext a z = .error .unimplementedMethod) := by
  refine ⟨fun z => rfl, fun l hl deltaNext a z => ?_⟩
  simp [Layer.feedBackward, hl, ActivationFunction.calculate_derivative]

/-- Witness for C7 at a concrete softmax layer. -/
theorem softmax_derivative_unimplemented_witness :
    ({ size := 1, activationFunction := .softmax, bias := [0],
       weight := [[1]] } : Layer).feedBackward [1] [1] [1]
      = .error .unimplementedMethod :=
  softmax_derivative_unimplemented.2
    { size := 1, activationFunction := .softmax, bias := [0], weight := [[1]] }
    rfl [1] [1] [1]

theorem logisticFn_symm (x : ℝ) : logisticFn x + logisticFn (-x) = 1 := by
  unfold logisticFn
  rw [neg_neg, Real.exp_neg]
  have hu : Real.exp x ≠ 0 := (Real.exp_pos x).ne'
  have h1 : (Real.exp x)⁻¹ + 1 ≠ 0 := by positivity
  have h2 : Real.exp x + 1 ≠ 0 := by positivity
  field_simp
  ring

/-- C8: the logistic activation satisfies the sigmoid symmetry
`calculate(z) + calculate(-z) = 1` componentwise, for every real input
vector. -/
theorem logistic_sigmoid_symmetry (z : RVec) (i : ℕ) (hi : i < z.length) :
    (ActivationFunction.calculate .logistic z).getD i 0
      + (ActivationFunction.calculate .logistic (z.map (fun v => -v))).getD i 0 = 1 := by
  have h1 : (ActivationFunction.calculate .logistic z).getD i 0
      = logisticFn (z.getD i 0) := getD_map _ z i 0 0 hi
  have h2 : (ActivationFunction.calculate .logistic (z.map (fun v => -v))).getD i 0
      = logisticFn (-(z.getD i 0)) := by
    rw [show ActivationFunction.calculate .logistic (z.map (fun v => -v))
        = (z.map (fun v => -v)).map logisticFn from rfl,
      getD_map _ _ i 0 0 (by simpa using hi), getD_map _ z i 0 0 hi]
  rw [h1, h2, logisticFn_symm]

/-- Witness for C8 at the concrete vector [0]. -/
theorem logistic_sigmoid_symmetry_witness :
    (ActivationFunction.calculate .logistic [(0 : ℝ)]).getD 0 0
      + (ActivationFunction.calculate .logistic ([(0 : ℝ)].map (fun v => -v))).getD 0 0 = 1 :=
  logistic_sigmoid_symmetry [0] 0 (by simp)

theorem sanitizeF_ceTerm (xv tv : ℝ) (h0 : 0 ≤ xv) (h1 : xv ≤ 1) :
    sanitizeF (ceTerm xv tv) =
      if xv = 0 ∨ xv = 1 then 0
      else -tv * Real.log xv - (1 - tv) * Real.log (1 - xv) := by
  by_cases hx0 : xv = 0
  · subst hx0
    rcases lt_trichotomy tv 0 with h | h | h
    · norm_num [ceTerm, flog, fmulR, fneg, fsub, sanitizeF, h.ne, not_lt.mpr h.le]
    · subst h
      norm_num [ceTerm, flog, fmulR, fneg, fsub, sanitizeF]
    · norm_num [ceTerm, flog, fmulR, fneg, fsub, sanitizeF, h.ne', h]
  · by_cases hx1 : xv = 1
    · subst hx1
      have h10 : (1 : ℝ) - 1 = 0 := by norm_num
      rcases lt_trichotomy (1 - tv) 0 with h | h | h
      · norm_num [ceTerm, flog, fmulR, fneg, fsub, sanitizeF, h10, h.ne, not_lt.mpr h.le]
      · norm_num [ceTerm, flog, fmulR, fneg, fsub, sanitizeF, h10, h]
      · norm_num [ceTerm, flog, fmulR, fneg, fsub, sanitizeF, h10, h.ne', h]
    · have hxpos : 0 < xv := lt_of_le_of_ne h0 (Ne.symm hx0)
      have hx1lt : xv < 1 := lt_of_le_of_ne h1 hx1
      have h2 : (0 : ℝ) < 1 - xv := by linarith
      simp only [ceTerm, flog, if_neg hx0, if_neg (not_lt.mpr h0),
        if_neg h2.ne', if_neg (not_lt.mpr h2.le), fmulR, fneg, fsub, sanitizeF,
        if_neg (fun hc => (Or.elim hc hx0 hx1 : False))]
      ring

/-- C6: CrossEntropy::calculate returns the componentwise sum of
`-target * ln(predicted) - (1 - target) * ln(1 - predicted)` in which the
non-finite terms, exactly those at components where `predicted` is 0 or 1,
are replaced by 0 before summing (the convention `0 * ln 0 = 0`). -/
theorem crossEntropy_filtered_sum (x t : RVec) (hlen : x.length = t.length)
    (hx : ∀ v ∈ x, 0 ≤ v ∧ v ≤ 1) :
    CostFunction.calculate .crossentropy x t =
      ∑ i ∈ Finset.range x.length,
        (if x.getD i 0 = 0 ∨ x.getD i 0 = 1 then 0
          else -(t.getD i 0) * Real.log (x.getD i 0)
            - (1 - t.getD i 0) * Real.log (1 - x.getD i 0)) := by
  induction x generalizing t with
  | nil => simp [CostFunction.calculate]
  | cons xi x' ih =>
    match t, hlen with
    | ti :: t', hlen =>
      have hlen' : x'.length = t'.length := by simpa using hlen
      have hxi := hx xi (by simp)
      have hx' : ∀ v ∈ x', 0 ≤ v ∧ v ≤ 1 := fun v hv => hx v (List.mem_cons_of_mem _ hv)
      have hcalc : CostFunction.calculate .crossentropy (xi :: x') (ti :: t')
          = sanitizeF (ceTerm xi ti) + CostFunction.calculate .crossentropy x' t' := by
        simp [CostFunction.calculate]
      rw [hcalc, ih t' hlen' hx', sanitizeF_ceTerm xi ti hxi.1 hxi.2,
        List.length_cons, Finset.sum_range_succ']
      simp only [List.getD_cons_succ, List.getD_cons_zero]
      ring

/-- Witness for C6 at the concrete saturated input predicted = [0],
target = [1]. -/
theorem crossEntropy_filtered_sum_witness :
    CostFunction.calculate .crossentropy [(0 : ℝ)] [(1 : ℝ)] =
      ∑ i ∈ Finset.range ([(0 : ℝ)]).length,
        (if ([(0 : ℝ)]).getD i 0 = 0 ∨ ([(0 : ℝ)]).getD i 0 = 1 then 0
          else -(([(1 : ℝ)]).getD i 0) * Real.log (([(0 : ℝ)]).getD i 0)
            - (1 - ([(1 : ℝ)]).getD i 0) * Real.log (1 - ([(0 : ℝ)]).getD i 0)) :=
  crossEntropy_filtered_sum [0] [1] rfl (by norm_num)

/-- std::swap_ranges between the slice of `xs` beginning at `start` and an
equal-length buffer `ys` (both swap_ranges calls of
StochasticGradientDescent::optimize swap the training slice
`[start, start + batchSize)` with the whole batch buffer): returns the
updated `(xs, ys)`. -/
def swapRanges {S : Type} (xs : List S) (start : ℕ) (ys : List S) : List S × List S :=
  (xs.take start ++ ys ++ xs.drop (start + ys.length), (xs.drop start).take ys.length)

/-- Loop body of StochasticGradientDescent::optimize for one `iBatch`:
swap the batch slice out of the training set into the buffer, invoke the
network's update callback on it, and swap it back. -/
def sgdStep {S σ : Type} (update_network : σ → List S → σ) (batchSize : ℕ)
    (st : List S × List S × σ) (iBatch : ℕ) : List S × List S × σ :=
  let initialBatchIndex := iBatch * batchSize
  let swapOut := swapRanges st.1 initialBatchIndex st.2.1
  let net' := update_network st.2.2 swapOut.2
  let swapBack := swapRanges swapOut.1 initialBatchIndex swapOut.2
  (swapBack.1, swapBack.2, net')

/-- StochasticGradientDescent::optimize.  `std::shuffle` with the
optimizer's RNG engine is modelled by the function parameter `shuffle`
(std::shuffle always permutes its range), and the bound
Network::updateParameters callback by `update_network` acting on an
abstract network state.  The batch buffer starts as `batchSize`
default-constructed samples (`DataLabel_Set batch(batchSize)`). -/
def StochasticGradientDescent.optimize {S σ : Type} [Inhabited S]
    (shuffle : List S → List S) (update_network : σ → List S → σ)
    (training : List S) (nBatches batchSize : ℕ) (net : σ) : List S × σ :=
  let shuffled := shuffle training
  let final := (List.range nBatches).foldl (sgdStep update_network batchSize)
    (shuffled, (List.replicate batchSize (default : S)), net)
  (final.1, final.2.2)

theorem swapRanges_snd {S : Type} (xs ys : List S) (start : ℕ) :
    (swapRanges xs start ys).2 = (xs.drop start).take ys.length := rfl

theorem swapRanges_restore {S : Type} (xs buf : List S) (start : ℕ)
    (h : start + buf.length ≤ xs.length) :
    swapRanges (swapRanges xs start buf).1 start (swapRanges xs start buf).2
      = (xs, buf) := by
  have hstart : start ≤ xs.length := le_trans (Nat.le_add_right _ _) h
  have htake : (xs.take start).length = start := by
    rw [List.length_take, min_eq_left hstart]
  have hslice : ((xs.drop start).take buf.length).length = buf.length := by
    rw [List.length_take, List.length_drop, min_eq_left (by omega)]
  have hfst : (swapRanges xs start buf).1
      = xs.take start ++ buf ++ xs.drop (start + buf.length) := rfl
  have hsnd : (swapRanges xs start buf).2 = (xs.drop start).take buf.length := rfl
  have hlen12 : (xs.take start ++ buf).length = start + buf.length := by
    rw [List.length_append, htake]
  rw [hfst, hsnd]
  simp only [swapRanges, Prod.mk.injEq]
  rw [hslice]
  constructor
  · have e1 : (xs.take start ++ buf ++ xs.drop (start + buf.length)).take start
        = xs.take start := by
      rw [List.append_assoc, List.take_append_of_le_length (le_of_eq htake.symm),
        List.take_take, min_self]
    have e2 : (xs.take start ++ buf ++ xs.drop (start + buf.length)).drop
        (start + buf.length) = xs.drop (start + buf.length) := by
      rw [List.drop_append_of_le_length (le_of_eq hlen12.symm),
        show (xs.take start ++ buf).drop (start + buf.length) = [] from
          List.drop_eq_nil_of_le (le_of_eq hlen12),
        List.nil_append]
    rw [e1, e2]
    have e3 : (xs.drop start).take buf.length ++ xs.drop (start + buf.length)
        = xs.drop start := by
      have hdd : xs.drop (start + buf.length) = (xs.drop start).drop buf.length := by
        rw [List.drop_drop, Nat.add_comm]
      rw [hdd, List.take_append_drop]
    rw [List.append_assoc, e3, List.take_append_drop]
  · have e4 : (xs.take start ++ buf ++ xs.drop (start + buf.length)).drop start
        = buf ++ xs.drop (start + buf.length) := by
      rw [List.append_assoc, List.drop_append_of_le_length (le_of_eq htake.symm),
        show (xs.take start).drop start = [] from
          List.drop_eq_nil_of_le (le_of_eq htake),
        List.nil_append]
    rw [e4, List.take_append_of_le_length (le_refl buf.length), List.take_length]

theorem sgdStep_eq {S σ : Type} (update_network : σ → List S → σ)
    (batchSize : ℕ) (tr buf : List S) (net : σ) (iBatch : ℕ)
    (hbuf : buf.length = batchSize)
    (hb : iBatch * batchSize + batchSize ≤ tr.length) :
    sgdStep update_network batchSize (tr, buf, net) iBatch
      = (tr, buf, update_network net ((tr.drop (iBatch * batchSize)).take batchSize)) := by
  have hres := swapRanges_restore tr buf (iBatch * batchSize) (by omega)
  have hsl : (swapRanges tr (iBatch * batchSize) buf).2
      = (tr.drop (iBatch * batchSize)).take batchSize := by
    rw [swapRanges_snd, hbuf]
  unfold sgdStep
  rw [show ((tr, buf, net) : List S × List S × σ).1 = tr from rfl]
  simp only
  rw [hsl] at hres ⊢
  rw [show swapRanges (swapRanges tr (iBatch * batchSize) buf).1 (iBatch * batchSize)
      ((tr.drop (iBatch * batchSize)).take batchSize)
      = (tr, buf) from hsl ▸ hres]

theorem sgd_foldl_range {S σ : Type} (update_network : σ → List S → σ)
    (batchSize : ℕ) (tr buf : List S) (hbuf : buf.length = batchSize) :
    ∀ (n : ℕ) (net : σ), n * batchSize ≤ tr.length →
      (List.range n).foldl (sgdStep update_network batchSize) (tr, buf, net)
        = (tr, buf,
            ((List.range n).map
              (fun k => (tr.drop (k * batchSize)).take batchSize)).foldl
              update_network net) := by
  intro n
  induction n with
  | zero => intro net _; simp
  | succ n ih =>
    intro net hn
    have hn' : n * batchSize ≤ tr.length :=
      le_trans (Nat.mul_le_mul_right _ (Nat.le_succ n)) hn
    rw [List.range_succ, List.foldl_append, ih net hn', List.map_append,
      List.foldl_append]
    simp only [List.map_cons, List.map_nil, List.foldl_cons, List.foldl_nil]
    exact sgdStep_eq update_network batchSize tr buf _ n hbuf
      (by rw [Nat.succ_mul] at hn; omega)

theorem sgd_optimize_eq {S σ : Type} [Inhabited S]
    (shuffle : List S → List S) (update_network : σ → List S → σ)
    (training : List S) (nBatches batchSize : ℕ) (net : σ)
    (hn : nBatches * batchSize ≤ (shuffle training).length) :
    StochasticGradientDescent.optimize shuffle update_network training
        nBatches batchSize net
      = (shuffle training,
          ((List.range nBatches).map
            (fun k => ((shuffle training).drop (k * batchSize)).take batchSize)).foldl
            update_network net) := by
  simp only [StochasticGradientDescent.optimize]
  rw [sgd_foldl_range update_network batchSize (shuffle training)
    (List.replicate batchSize default) (List.length_replicate _ _) nBatches net hn]

theorem slices_join {S : Type} (l : List S) (batchSize : ℕ) :
    ∀ n : ℕ, n * batchSize ≤ l.length →
      ((List.range n).map (fun k => (l.drop (k * batchSize)).take batchSize)).flatten
        = l.take (n * batchSize) := by
  intro n
  induction n with
  | zero => intro _; simp
  | succ n ih =>
    intro hn
    have hn' : n * batchSize ≤ l.length :=
      le_trans (Nat.mul_le_mul_right _ (Nat.le_succ n)) hn
    rw [List.range_succ, List.map_append, List.flatten_append, ih hn']
    simp only [List.map_cons, List.map_nil, List.flatten_cons, List.flatten_nil,
      List.append_nil]
    rw [Nat.succ_mul, List.take_add]

/-- C4: with the arguments Network::train passes
(`nBatches = ⌊N / B⌋`), one StochasticGradientDescent::optimize call
shuffles the training set and then folds the network-update callback over
exactly `⌊N / B⌋` batches, the k-th being the contiguous slice
`[k*B, (k+1)*B)` of the shuffled set; every batch has length `B`, the
batches concatenate to the first `⌊N / B⌋ * B` positions of the shuffled
set (so they are pairwise disjoint and no position repeats within a
batch), and the trailing `N mod B` samples are excluded. -/
theorem sgd_optimize_batches {S σ : Type} [Inhabited S]
    (shuffle : List S → List S) (update_network : σ → List S → σ)
    (training : List S) (batchSize : ℕ) (net : σ)
    (hB : 0 < batchSize) (hBN : batchSize ≤ training.length)
    (hperm : (shuffle training).Perm training) :
    StochasticGradientDescent.optimize shuffle update_network training
        (training.length / batchSize) batchSize net
      = (shuffle training,
          ((List.range (training.length / batchSize)).map
            (fun k => ((shuffle training).drop (k * batchSize)).take batchSize)).foldl
            update_network net) ∧
    ((List.range (training.length / batchSize)).map
        (fun k => ((shuffle training).drop (k * batchSize)).take batchSize)).length
      = training.length / batchSize ∧
    (∀ k < training.length / batchSize,
      (((List.range (training.length / batchSize)).map
          (fun k => ((shuffle training).drop (k * batchSize)).take batchSize)).getD
          k []).length = batchSize) ∧
    ((List.range (training.length / batchSize)).map
        (fun k => ((shuffle training).drop (k * batchSize)).take batchSize)).flatten
      = (shuffle training).take (training.length / batchSize * batchSize) := by
  have hlen : (shuffle training).length = training.length := hperm.length_eq
  have hn : training.length / batchSize * batchSize ≤ (shuffle training).length := by
    rw [hlen]; exact Nat.div_mul_le_self _ _
  refine ⟨sgd_optimize_eq shuffle update_network training _ batchSize net hn, ?_, ?_,
    slices_join (shuffle training) batchSize _ hn⟩
  · simp
  · intro k hk
    have hks : k * batchSize + batchSize ≤ (shuffle training).length := by
      have : (k + 1) * batchSize ≤ training.length / batchSize * batchSize :=
        Nat.mul_le_mul_right _ hk
      rw [Nat.succ_mul] at this
      omega
    have hget : ((List.range (training.length / batchSize)).map
        (fun k => ((shuffle training).drop (k * batchSize)).take batchSize)).getD k []
        = ((shuffle training).drop (k * batchSize)).take batchSize := by
      rw [getD_map _ _ k 0 [] (by simpa using hk), List.getD_eq_getElem _ _ (by simpa using hk)]
      simp
    rw [hget, List.length_take, List.length_drop, min_eq_left (by omega)]

/-- Witness for C4 on a concrete five-sample set with batch size two. -/
theorem sgd_optimize_batches_witness :
    StochasticGradientDescent.optimize List.reverse
        (fun (acc : List (List ℕ)) b => acc ++ [b]) [1, 2, 3, 4, 5]
        ([1, 2, 3, 4, 5].length / 2) 2 []
      = (List.reverse [1, 2, 3, 4, 5],
          ((List.range ([1, 2, 3, 4, 5].length / 2)).map
            (fun k => ((List.reverse [1, 2, 3, 4, 5]).drop (k * 2)).take 2)).foldl
            (fun (acc : List (List ℕ)) b => acc ++ [b]) []) ∧
    ((List.range ([1, 2, 3, 4, 5].length / 2)).map
        (fun k => ((List.reverse [1, 2, 3, 4, 5]).drop (k * 2)).take 2)).length
      = [1, 2, 3, 4, 5].length / 2 ∧
    (∀ k < [1, 2, 3, 4, 5].length / 2,
      (((List.range ([1, 2, 3, 4, 5].length / 2)).map
          (fun k => ((List.reverse [1, 2, 3, 4, 5]).drop (k * 2)).take 2)).getD
          k []).length = 2) ∧
    ((List.range ([1, 2, 3, 4, 5].length / 2)).map
        (fun k => ((List.reverse [1, 2, 3, 4, 5]).drop (k * 2)).take 2)).flatten
      = (List.reverse [1, 2, 3, 4, 5]).take ([1, 2, 3, 4, 5].length / 2 * 2) :=
  sgd_optimize_batches List.reverse _ [1, 2, 3, 4, 5] 2 []
    (by decide) (by decide) (by decide)

/-- C9: whenever the batches fit inside the training set
(`nBatches * batchSize ≤ N`), StochasticGradientDescent::optimize leaves
the training set a permutation of its input — every batch is swapped out
into the scratch buffer and swapped back in full, so no sample is lost,
duplicated or replaced. -/
theorem sgd_optimize_training_perm {S σ : Type} [Inhabited S]
    (shuffle : List S → List S) (update_network : σ → List S → σ)
    (training : List S) (nBatches batchSize : ℕ) (net : σ)
    (hperm : (shuffle training).Perm training)
    (hn : nBatches * batchSize ≤ training.length) :
    ((StochasticGradientDescent.optimize shuffle update_network training
        nBatches batchSize net).1).Perm training := by
  rw [sgd_optimize_eq shuffle update_network training nBatches batchSize net
    (by rw [hperm.length_eq]; exact hn)]
  exact hperm

/-- Witness for C9 on a concrete five-sample set. -/
theorem sgd_optimize_training_perm_witness :
    ((StochasticGradientDescent.optimize List.reverse
        (fun (acc : List (List ℕ)) b => acc ++ [b]) [1, 2, 3, 4, 5]
        2 2 []).1).Perm [1, 2, 3, 4, 5] :=
  sgd_optimize_training_perm List.reverse _ [1, 2, 3, 4, 5] 2 2 []
    (by decide) (by decide)

/-- A (data, label) pair as produced by the CSV reader
(`DataLabel_Pair` in CSVReader.h). -/
abbrev DataLabel_Pair := RVec × RVec

/-- An ordered collection of samples (`DataLabel_Set`). -/
abbrev DataLabel_Set := List DataLabel_Pair

/-- The network (Network.h): input size, layer sequence, cost function and
the four per-epoch metric sequences.  The optimizer object and the RNG
engine are not part of the pure state: the shuffle they produce is a
function parameter of `train`, and the update callback the optimizer holds
is rebuilt from `updateParameters` where needed. -/
structure Network : Type where
  inputSize : ℕ
  layers : List Layer
  costFunction : CostFunction
  trainingCost : List ℝ := []
  trainingAccuracy : List ℝ := []
  evaluationCost : List ℝ := []
  evaluationAccuracy : List ℝ := []

/-- Network::getNumberOfLayers. -/
def Network.getNumberOfLayers (net : Network) : ℕ := net.layers.length

/-- layers.back().getSize(): the last layer's neuron count (the C++ call
is undefined on an empty network; 0 stands in as a junk value there). -/
def Network.lastLayerSize (net : Network) : ℕ :=
  ((net.layers.getLast?).map Layer.getSize).getD 0

/-- Network::feedForward: thread the activation through all layers. -/
noncomputable def Network.feedForward (net : Network) (x : RVec) : RVec :=
  net.layers.foldl (fun a l => l.feedForward a) x

/-- The C++ cast `static_cast<PREDICTION>(v)` from double: truncation
toward zero (the Manager instantiates PREDICTION at size_t; the integer
value is modelled in ℤ, a negative truncated value being exactly the
out-of-range case). -/
noncomputable def trunc (v : ℝ) : ℤ := if 0 ≤ v then ⌊v⌋ else ⌈v⌉

noncomputable def argmaxAux : List ℝ → ℕ → ℕ → ℝ → ℕ
  | [], _, best, _ => best
  | x :: xs, i, best, bestVal =>
      if bestVal < x then argmaxAux xs (i + 1) i x
      else argmaxAux xs (i + 1) best bestVal

/-- Eigen's maxCoeff index visitor: index of the first maximal
coefficient of the vector. -/
noncomputable def argmaxIdx : List ℝ → ℕ
  | [] => 0
  | x :: xs => argmaxAux xs 1 0 x

/-- Network::output2prediction: for a multi-element output the index of
the maximal component, for a single-element output the scalar cast to the
prediction type.  (The read `output(0)` on an empty vector is an
out-of-range Eigen access; no claim touches that case and `headI`
returns junk 0 there.) -/
noncomputable def Network.output2prediction (output : RVec) : ℤ :=
  if 1 < output.length then (argmaxIdx output : ℤ) else trunc output.headI

/-- Network::prediction2output: a multi-element label passes through
unchanged; a scalar label `v` is expanded to a zero vector of the last
layer's size with 1 written at index `static_cast<PREDICTION>(v)` —
without any bounds check, so the write `output(idx) = 1` is an
out-of-range Eigen access unless the truncated value lies in
`[0, lastLayerSize)`. -/
noncomputable def Network.prediction2output (net : Network) (prediction : RVec) :
    Except NErr RVec :=
  if 1 < prediction.length then .ok prediction
  else
    match prediction with
    | [] => .error .outOfBounds
    | v :: _ =>
        if 0 ≤ trunc v ∧ trunc v < (net.lastLayerSize : ℤ) then
          .ok ((List.replicate net.lastLayerSize 0).set (trunc v).toNat 1)
        else .error .outOfBounds

/-- Squared Frobenius norm `pow(weight.norm(), 2)` of one weight matrix
(the square of the square root of the sum of squares, i.e. the sum of
squares). -/
noncomputable def frobSq (m : RMat) : ℝ :=
  (m.map (fun row => (row.map (fun v => v ^ 2)).sum)).sum

/-- Loop body of Network::calcAccuracyAndCost for one sample:
forward-propagate, compare the predictions of output and label for the
accuracy count, and accumulate the cost of the predicted output against
the expanded label.  The unchecked write in prediction2output makes the
step fallible. -/
noncomputable def calcStep (net : Network) (acc : ℕ × ℝ) (input : DataLabel_Pair) :
    Except NErr (ℕ × ℝ) := do
  let predictedOutput := net.feedForward input.1
  let prediction := Network.output2prediction predictedOutput
  let expectedOutput ← net.prediction2output input.2
  let expected := Network.output2prediction input.2
  pure ((if prediction = expected then acc.1 + 1 else acc.1),
    acc.2 + net.costFunction.calculate predictedOutput expectedOutput)

/-- Network::calcAccuracyAndCost: fold `calcStep` over the data starting
from `(0, 0)`, then add the L2 term `(lambda/2) * Σ ||weight||²`. -/
noncomputable def Network.calcAccuracyAndCost (net : Network)
    (data : DataLabel_Set) (lambda : ℝ) : Except NErr (ℕ × ℝ) := do
  let acc ← data.foldlM (calcStep net) (0, 0)
  let costRegularization := (net.layers.map (fun l => frobSq l.weight)).sum
  pure (acc.1, acc.2 + lambda / 2 * costRegularization)

/-- Recursive rendering of Network::backPropagate over the layer list:
feed forward storing each layer's weighted input and activation (here on
the call stack instead of the `zs`/`activations` arrays), seed the
backward pass with the cost derivative at the final activation, and walk
the layers from last to first through Layer::feedBackward, threading the
error signal and collecting the per-layer gradients in order. -/
noncomputable def backPropLayers (costDelta : RVec → RVec) :
    List Layer → RVec → Except NErr (List RVec × List RMat × RVec)
  | [], a => .ok ([], [], costDelta a)
  | l :: rest, a => do
      let az := l.feedForwardZ a
      let res ← backPropLayers costDelta rest az.1
      let grads ← l.feedBackward res.2.2 a az.2
      pure (grads.1 :: res.1, grads.2.1 :: res.2.1, grads.2.2)

/-- Network::backPropagate: per-layer bias and weight gradients for one
sample. -/
noncomputable def Network.backPropagate (net : Network) (x y : RVec) :
    Except NErr (List RVec × List RMat) := do
  let res ← backPropLayers
    (fun aFinal => net.costFunction.calculate_derivative aFinal y) net.layers x
  pure (res.1, res.2.1)

/-- The zeroed bias-gradient accumulators of Network::updateParameters:
one zero vector per layer, sized by the layer's neuron count. -/
def Network.zeroNabla_b (net : Network) : List RVec :=
  net.layers.map (fun l => List.replicate l.getSize 0)

/-- The zeroed weight-gradient accumulators of Network::updateParameters:
the first layer gets a `size × inputSize` zero matrix, each later layer a
`size × previousSize` zero matrix. -/
def Network.zeroNabla_w (net : Network) : List RMat :=
  match net.layers with
  | [] => []
  | l0 :: rest =>
      List.replicate l0.getSize (List.replicate net.inputSize 0) ::
        List.zipWith
          (fun l lPrev => List.replicate l.getSize (List.replicate lPrev.getSize 0))
          rest (l0 :: rest)

/-- One accumulation step of Network::updateParameters:
`nabla_b[i] += delta_nabla_b[i]` and `nabla_w[i] += delta_nabla_w[i]`
for every layer. -/
def nablaAddStep (acc dn : List RVec × List RMat) : List RVec × List RMat :=
  (List.zipWith addL acc.1 dn.1, List.zipWith addM acc.2 dn.2)

/-- Per-layer application of Layer::updateBiasWeight with the accumulated
gradients (the final loop of Network::updateParameters). -/
def applyUpdates (lrRatio regRatio : ℝ) :
    List Layer → List RVec → List RMat → List Layer
  | l :: ls, nb :: nbs, nw :: nws =>
      l.updateBiasWeight nb nw lrRatio regRatio ::
        applyUpdates lrRatio regRatio ls nbs nws
  | _, _, _ => []

/-- Network::updateParameters: zero the gradient accumulators, add every
sample's backPropagate gradients into them (the network parameters are
unchanged throughout the loop), then update each layer once with the
accumulated sums. -/
noncomputable def Network.updateParameters (net : Network)
    (training : DataLabel_Set) (learningRateRatio regularizationRatio : ℝ) :
    Except NErr Network := do
  let nablas ← training.foldlM
    (fun acc input => do
      let dn ← net.backPropagate input.1 input.2
      pure (nablaAddStep acc dn))
    (net.zeroNabla_b, net.zeroNabla_w)
  pure { net with
         layers := applyUpdates learningRateRatio regularizationRatio net.layers
           nablas.1 nablas.2 }

/-- The learning-rate ratio Network::train hands to the optimizer:
`-eta / batchSize`, so the per-batch update applies gradient sums, not
averages. -/
noncomputable def Network.trainLearningRate (eta : ℝ) (batchSize : ℕ) : ℝ :=
  -eta / (batchSize : ℝ)

/-- One epoch of Network::train: one optimizer pass whose callback threads
the fallible network state, then accuracy and cost on the (shuffled)
training set and the evaluation set, normalized by the set sizes computed
before the first epoch and appended to the four metric sequences. -/
noncomputable def Network.epoch (shuffle : DataLabel_Set → DataLabel_Set)
    (evaluation : DataLabel_Set) (nBatches batchSize : ℕ)
    (learningRateRatio regularizationRatio : ℝ) (nTraining nEvaluation : ℕ)
    (st : DataLabel_Set × Network) : Except NErr (DataLabel_Set × Network) := do
  let res := StochasticGradientDescent.optimize shuffle
    (fun (acc : Except NErr Network) batch =>
      acc >>= fun n => n.updateParameters batch learningRateRatio regularizationRatio)
    st.1 nBatches batchSize (.ok st.2)
  let net' ← res.2
  let trainRes ← net'.calcAccuracyAndCost res.1 0
  let evalRes ← net'.calcAccuracyAndCost evaluation 0
  pure (res.1,
    { net' with
      trainingCost := net'.trainingCost ++ [trainRes.2 / (nTraining : ℝ)]
      trainingAccuracy := net'.trainingAccuracy ++ [(trainRes.1 : ℝ) / (nTraining : ℝ)]
      evaluationCost := net'.evaluationCost ++ [evalRes.2 / (nEvaluation : ℝ)]
      evaluationAccuracy :=
        net'.evaluationAccuracy ++ [(evalRes.1 : ℝ) / (nEvaluation : ℝ)] })

/-- Network::train: the two shape checks against the first training
sample (std::range_error throws), the derived batch count
`⌊N / batchSize⌋` and learning/regularization ratios, then the purely
sequential epoch loop. -/
noncomputable def Network.train (net : Network)
    (shuffle : DataLabel_Set → DataLabel_Set)
    (training evaluation : DataLabel_Set)
    (nEpoch batchSize : ℕ) (eta lambda : ℝ) : Except NErr Network :=
  if training.headI.1.length ≠ net.inputSize then .error .inputShapeMismatch
  else if training.headI.2.length ≠ net.lastLayerSize then .error .outputShapeMismatch
  else
    let nTraining := training.length
    let nBatches := nTraining / batchSize
    let nEvaluation := evaluation.length
    let learningRateRatio := Network.trainLearningRate eta batchSize
    let regularizationRatio := -eta * lambda / (nTraining : ℝ)
    Except.map Prod.snd
      ((List.range nEpoch).foldlM
        (fun st _ => Network.epoch shuffle evaluation nBatches batchSize
          learningRateRatio regularizationRatio nTraining nEvaluation st)
        (training, net))

/-! Helper lemmas for the Except monad and monadic folds. -/

theorem except_bind_ok {ε α β : Type} (a : α) (f : α → Except ε β) :
    (Except.ok a >>= f) = f a := rfl

theorem except_bind_error {ε α β : Type} (e : ε) (f : α → Except ε β) :
    ((Except.error e : Except ε α) >>= f) = Except.error e := rfl

theorem foldl_invariant {α β : Type} (P : α → Prop) (f : α → β → α)
    (hf : ∀ a b, P a → P (f a b)) :
    ∀ (l : List β) (init : α), P init → P (l.foldl f init) := by
  intro l
  induction l with
  | nil => intro init h; simpa using h
  | cons x l ih =>
    intro init h
    rw [List.foldl_cons]
    exact ih (f init x) (hf init x h)

theorem foldlM_error_kind {α β ε : Type} (K : ε → Prop) (f : α → β → Except ε α)
    (hf : ∀ a b e, f a b = .error e → K e) :
    ∀ (l : List β) (acc : α) (e : ε), l.foldlM f acc = .error e → K e := by
  intro l
  induction l with
  | nil =>
    intro acc e h
    rw [List.foldlM_nil] at h
    exact Except.noConfusion h
  | cons x l ih =>
    intro acc e h
    rw [List.foldlM_cons] at h
    cases hfx : f acc x with
    | error e' =>
      rw [hfx, except_bind_error] at h
      exact (Except.error.inj h) ▸ hf acc x e' hfx
    | ok a' =>
      rw [hfx, except_bind_ok] at h
      exact ih a' e h

theorem foldlM_mem_error {α β ε : Type} (f : α → β → Except ε α) (x : β)
    (hx : ∀ a, ∃ e, f a x = .error e) :
    ∀ (l : List β), x ∈ l → ∀ acc : α, ∃ e, l.foldlM f acc = .error e := by
  intro l
  induction l with
  | nil => intro hmem; exact absurd hmem (List.not_mem_nil x)
  | cons y l ih =>
    intro hmem acc
    rcases List.mem_cons.mp hmem with heq | hmem'
    · obtain ⟨e, he⟩ := hx acc
      refine ⟨e, ?_⟩
      rw [List.foldlM_cons, ← heq, he]
      rfl
    · cases hfy : f acc y with
      | error e =>
        refine ⟨e, ?_⟩
        rw [List.foldlM_cons, hfy]
        rfl
      | ok a' =>
        obtain ⟨e, he⟩ := ih hmem' a'
        refine ⟨e, ?_⟩
        rw [List.foldlM_cons, hfy]
        exact he

theorem foldlM_nabla (net : Network) :
    ∀ (training : DataLabel_Set) (gs : List (List RVec × List RMat)),
      training.mapM (fun input => net.backPropagate input.1 input.2) = .ok gs →
      ∀ acc : List RVec × List RMat,
        training.foldlM
          (fun acc input => do
            let dn ← net.backPropagate input.1 input.2
            pure (nablaAddStep acc dn)) acc
          = .ok (gs.foldl nablaAddStep acc) := by
  intro training
  induction training with
  | nil =>
    intro gs hg acc
    rw [List.mapM_nil] at hg
    cases hg
    rw [List.foldlM_nil, List.foldl_nil]
    rfl
  | cons x l ih =>
    intro gs hg acc
    rw [List.mapM_cons] at hg
    cases hfx : net.backPropagate x.1 x.2 with
    | error e =>
      rw [hfx, except_bind_error] at hg
      exact Except.noConfusion hg
    | ok b =>
      rw [hfx, except_bind_ok] at hg
      cases hml : l.mapM (fun input => net.backPropagate input.1 input.2) with
      | error e =>
        rw [hml, except_bind_error] at hg
        exact Except.noConfusion hg
      | ok bs =>
        rw [hml, except_bind_ok] at hg
        cases hg
        rw [List.foldlM_cons, List.foldl_cons]
        have hstep : (do
            let dn ← net.backPropagate x.1 x.2
            pure (nablaAddStep acc dn) : Except NErr (List RVec × List RMat))
            = .ok (nablaAddStep acc b) := by
          rw [hfx, except_bind_ok]
          rfl
        rw [hstep, except_bind_ok]
        exact ih bs hml (nablaAddStep acc b)

/-- C2: Network::updateParameters accumulates, into per-layer accumulators
zeroed at the start of the batch, the sum of the per-sample gradients that
backPropagate computes at the unchanged pre-batch parameters, then calls
Layer::updateBiasWeight exactly once per layer with the accumulated sums
(`applyUpdates`); no per-sample average is taken — the batch-size division
lives in the learning-rate ratio, which Network::train computes as
`-eta / batchSize`. -/
theorem updateParameters_batch_sum (net : Network) (training : DataLabel_Set)
    (lrRatio regRatio : ℝ) (gs : List (List RVec × List RMat))
    (hg : training.mapM (fun input => net.backPropagate input.1 input.2) = .ok gs) :
    net.updateParameters training lrRatio regRatio
      = .ok { net with
              layers := applyUpdates lrRatio regRatio net.layers
                (gs.foldl nablaAddStep (net.zeroNabla_b, net.zeroNabla_w)).1
                (gs.foldl nablaAddStep (net.zeroNabla_b, net.zeroNabla_w)).2 } ∧
    (∀ (eta : ℝ) (batchSize : ℕ),
      Network.trainLearningRate eta batchSize = -eta / (batchSize : ℝ)) := by
  refine ⟨?_, fun _ _ => rfl⟩
  unfold Network.updateParameters
  rw [foldlM_nabla net training gs hg (net.zeroNabla_b, net.zeroNabla_w),
    except_bind_ok]
  rfl

/-- A concrete one-layer logistic network for witnesses. -/
def exampleNet : Network :=
  { inputSize := 1
    layers := [{ size := 1, activationFunction := .logistic, bias := [0],
                 weight := [[1]] }]
    costFunction := .quadratic }

/-- Witness for C2 at the concrete network and the empty batch. -/
theorem updateParameters_batch_sum_witness :
    exampleNet.updateParameters [] 2 3
      = .ok { exampleNet with
              layers := applyUpdates 2 3 exampleNet.layers
                (([] : List (List RVec × List RMat)).foldl nablaAddStep
                  (exampleNet.zeroNabla_b, exampleNet.zeroNabla_w)).1
                (([] : List (List RVec × List RMat)).foldl nablaAddStep
                  (exampleNet.zeroNabla_b, exampleNet.zeroNabla_w)).2 } ∧
    (∀ (eta : ℝ) (batchSize : ℕ),
      Network.trainLearningRate eta batchSize = -eta / (batchSize : ℝ)) :=
  updateParameters_batch_sum exampleNet [] 2 3 [] rfl

theorem prediction2output_cons (net : Network) (v : ℝ) :
    net.prediction2output [v]
      = if 0 ≤ trunc v ∧ trunc v < (net.lastLayerSize : ℤ) then
          .ok ((List.replicate net.lastLayerSize 0).set (trunc v).toNat 1)
        else .error .outOfBounds := by
  unfold Network.prediction2output
  rw [if_neg (by simp)]

theorem prediction2output_error (net : Network) (p : RVec) (e : NErr)
    (h : net.prediction2output p = .error e) : e = .outOfBounds := by
  by_cases hp : 1 < p.length
  · unfold Network.prediction2output at h
    rw [if_pos hp] at h
    exact Except.noConfusion h
  · cases p with
    | nil =>
      unfold Network.prediction2output at h
      exact (Except.error.inj h).symm
    | cons v t =>
      cases t with
      | nil =>
        rw [prediction2output_cons] at h
        by_cases hc : 0 ≤ trunc v ∧ trunc v < (net.lastLayerSize : ℤ)
        · rw [if_pos hc] at h
          exact Except.noConfusion h
        · rw [if_neg hc] at h
          exact (Except.error.inj h).symm
      | cons w t' =>
        exact absurd (by simp only [List.length_cons]; omega) hp

theorem calcStep_error (net : Network) (acc : ℕ × ℝ) (input : DataLabel_Pair)
    (e : NErr) (h : calcStep net acc input = .error e) : e = .outOfBounds := by
  unfold calcStep at h
  cases hp : net.prediction2output input.2 with
  | error e' =>
    rw [hp] at h
    exact (Except.error.inj h) ▸ prediction2output_error net input.2 e' hp
  | ok eo =>
    rw [hp] at h
    exact Except.noConfusion h

theorem calcAccuracyAndCost_error (net : Network) (data : DataLabel_Set)
    (lambda : ℝ) (e : NErr)
    (h : net.calcAccuracyAndCost data lambda = .error e) : e = .outOfBounds := by
  unfold Network.calcAccuracyAndCost at h
  cases hf : data.foldlM (calcStep net) (0, 0) with
  | error e' =>
    rw [hf] at h
    exact (Except.error.inj h) ▸
      foldlM_error_kind (fun e => e = .outOfBounds) (calcStep net)
        (fun a b e2 h2 => calcStep_error net a b e2 h2) data (0, 0) e' hf
  | ok acc =>
    rw [hf] at h
    exact Except.noConfusion h

/-- C10: Network::prediction2output performs no bounds check when
expanding a single-element label: it writes 1 at the truncated integer
value of the scalar in a zero vector of the last layer's size, so for a
one-element label [v] it is well-defined (returns a value) if and only if
the truncated value lies in `[0, lastLayerSize)`; and whenever a dataset
contains a sample whose scalar label violates this range,
Network::calcAccuracyAndCost performs the out-of-range vector access
(modelled as the error `NErr.outOfBounds`). -/
theorem prediction2output_unchecked_write :
    (∀ (net : Network) (v : ℝ),
      (∃ out, net.prediction2output [v] = .ok out) ↔
        (0 ≤ trunc v ∧ trunc v < (net.lastLayerSize : ℤ))) ∧
    (∀ (net : Network) (v : ℝ),
      0 ≤ trunc v → trunc v < (net.lastLayerSize : ℤ) →
      net.prediction2output [v]
        = .ok ((List.replicate net.lastLayerSize 0).set (trunc v).toNat 1)) ∧
    (∀ (net : Network) (data : DataLabel_Set) (lambda : ℝ) (s : DataLabel_Pair),
      s ∈ data → s.2.length = 1 →
      ¬ (0 ≤ trunc s.2.headI ∧ trunc s.2.headI < (net.lastLayerSize : ℤ)) →
      net.calcAccuracyAndCost data lambda = .error .outOfBounds) := by
  refine ⟨?_, ?_, ?_⟩
  · intro net v
    rw [prediction2output_cons]
    by_cases hc : 0 ≤ trunc v ∧ trunc v < (net.lastLayerSize : ℤ)
    · rw [if_pos hc]
      exact ⟨fun _ => hc, fun _ => ⟨_, rfl⟩⟩
    · rw [if_neg hc]
      exact ⟨fun hout => absurd hout.choose_spec (fun hh => Except.noConfusion hh),
        fun hcc => absurd hcc hc⟩
  · intro net v h1 h2
    rw [prediction2output_cons, if_pos ⟨h1, h2⟩]
  · intro net data lambda s hmem hlen hc
    obtain ⟨v, hv⟩ := List.length_eq_one.mp hlen
    have hcv : ¬ (0 ≤ trunc v ∧ trunc v < (net.lastLayerSize : ℤ)) := by
      rw [hv] at hc
      simpa using hc
    have hstep : ∀ acc : ℕ × ℝ, ∃ e, calcStep net acc s = .error e := by
      intro acc
      refine ⟨.outOfBounds, ?_⟩
      unfold calcStep
      rw [hv, prediction2output_cons, if_neg hcv]
      rfl
    obtain ⟨e, he⟩ := foldlM_mem_error (calcStep net) s hstep data hmem (0, 0)
    have hek : e = .outOfBounds :=
      foldlM_error_kind (fun e => e = .outOfBounds) (calcStep net)
        (fun a b e2 h2 => calcStep_error net a b e2 h2) data (0, 0) e he
    subst hek
    unfold Network.calcAccuracyAndCost
    rw [he]
    rfl

/-- Witness for C10: label value 5 against a network with a single output
neuron makes calcAccuracyAndCost fail with the out-of-range access. -/
theorem prediction2output_unchecked_write_witness :
    exampleNet.calcAccuracyAndCost [([(0 : ℝ)], [(5 : ℝ)])] 0
      = .error .outOfBounds :=
  prediction2output_unchecked_write.2.2 exampleNet [([(0 : ℝ)], [(5 : ℝ)])] 0
    ([(0 : ℝ)], [(5 : ℝ)]) (by simp) rfl
    (by
      have h5 : trunc (5 : ℝ) = 5 := by
        unfold trunc
        rw [if_pos (by norm_num)]
        norm_num
      simp only [List.headI, h5]
      intro hc
      have : (5 : ℤ) < (exampleNet.lastLayerSize : ℤ) := hc.2
      norm_num [exampleNet, Network.lastLayerSize, Layer.getSize] at this)

theorem except_map_error {α β ε : Type} (g : α → β) (m : Except ε α) (e : ε)
    (h : Except.map g m = .error e) : m = .error e := by
  cases m with
  | error e' => exact congrArg Except.error (Except.error.inj h)
  | ok a => exact Except.noConfusion h

theorem calculate_derivative_error (af : ActivationFunction) (z : RVec) (e : NErr)
    (h : af.calculate_derivative z = .error e) : e = .unimplementedMethod := by
  cases af with
  | logistic => exact Except.noConfusion h
  | softmax => exact (Except.error.inj h).symm

theorem feedBackward_error (l : Layer) (dn a z : RVec) (e : NErr)
    (h : l.feedBackward dn a z = .error e) : e = .unimplementedMethod := by
  unfold Layer.feedBackward at h
  cases hd : l.activationFunction.calculate_derivative z with
  | error e' =>
    rw [hd] at h
    exact (Except.error.inj h) ▸ calculate_derivative_error _ z e' hd
  | ok sd =>
    rw [hd] at h
    exact Except.noConfusion h

theorem backPropLayers_error (costDelta : RVec → RVec) :
    ∀ (ls : List Layer) (a : RVec) (e : NErr),
      backPropLayers costDelta ls a = .error e → e = .unimplementedMethod := by
  intro ls
  induction ls with
  | nil =>
    intro a e h
    exact Except.noConfusion h
  | cons l rest ih =>
    intro a e h
    simp only [backPropLayers] at h
    cases hr : backPropLayers costDelta rest (l.feedForwardZ a).1 with
    | error e' =>
      simp only [hr, except_bind_error] at h
      exact (Except.error.inj h) ▸ ih _ e' hr
    | ok res =>
      simp only [hr, except_bind_ok] at h
      cases hb : l.feedBackward res.2.2 a (l.feedForwardZ a).2 with
      | error e'' =>
        simp only [hb, except_bind_error] at h
        exact (Except.error.inj h) ▸ feedBackward_error l _ a _ e'' hb
      | ok g =>
        simp only [hb, except_bind_ok] at h
        exact Except.noConfusion h

theorem backPropagate_error (net : Network) (x y : RVec) (e : NErr)
    (h : net.backPropagate x y = .error e) : e = .unimplementedMethod := by
  unfold Network.backPropagate at h
  cases hr : backPropLayers
      (fun aFinal => net.costFunction.calculate_derivative aFinal y) net.layers x with
  | error e' =>
    rw [hr] at h
    exact (Except.error.inj h) ▸ backPropLayers_error _ net.layers x e' hr
  | ok res =>
    rw [hr] at h
    exact Except.noConfusion h

theorem updateParameters_error (net : Network) (tr : DataLabel_Set) (lr rr : ℝ)
    (e : NErr) (h : net.updateParameters tr lr rr = .error e) :
    e = .unimplementedMethod := by
  unfold Network.updateParameters at h
  cases hf : tr.foldlM
      (fun acc input => do
        let dn ← net.backPropagate input.1 input.2
        pure (nablaAddStep acc dn))
      (net.zeroNabla_b, net.zeroNabla_w) with
  | error e' =>
    rw [hf] at h
    refine (Except.error.inj h) ▸
      foldlM_error_kind (fun e => e = .unimplementedMethod) _ ?_ tr _ e' hf
    intro a b e2 h2
    replace h2 : (do
        let dn ← net.backPropagate b.1 b.2
        pure (nablaAddStep a dn) : Except NErr (List RVec × List RMat)) = .error e2 := h2
    cases hb : net.backPropagate b.1 b.2 with
    | error e3 =>
      rw [hb] at h2
      exact (Except.error.inj h2) ▸ backPropagate_error net b.1 b.2 e3 hb
    | ok dn =>
      rw [hb] at h2
      exact Except.noConfusion h2
  | ok nab =>
    rw [hf] at h
    exact Except.noConfusion h

theorem sgd_optimize_netstate_kind (shuffle : DataLabel_Set → DataLabel_Set)
    (training : DataLabel_Set) (nBatches batchSize : ℕ) (net : Network)
    (lrRatio regRatio : ℝ) (e : NErr)
    (h : (StochasticGradientDescent.optimize shuffle
        (fun (acc : Except NErr Network) batch =>
          acc >>= fun n => n.updateParameters batch lrRatio regRatio)
        training nBatches batchSize (.ok net)).2 = .error e) :
    e = .unimplementedMethod := by
  have hstep : ∀ (st : DataLabel_Set × DataLabel_Set × Except NErr Network) (i : ℕ),
      (∀ e', st.2.2 = .error e' → e' = .unimplementedMethod) →
      (∀ e', (sgdStep (fun (acc : Except NErr Network) batch =>
          acc >>= fun n => n.updateParameters batch lrRatio regRatio) batchSize st i).2.2
          = .error e' → e' = .unimplementedMethod) := by
    intro st i hP e' h'
    replace h' : (st.2.2 >>= fun n => n.updateParameters
        ((swapRanges st.1 (i * batchSize) st.2.1).2) lrRatio regRatio)
        = .error e' := h'
    cases hs : st.2.2 with
    | error e0 =>
      rw [hs, except_bind_error] at h'
      exact (Except.error.inj h') ▸ hP e0 hs
    | ok n =>
      rw [hs, except_bind_ok] at h'
      exact updateParameters_error n _ lrRatio regRatio e' h'
  have hinv := foldl_invariant
    (fun st : DataLabel_Set × DataLabel_Set × Except NErr Network =>
      ∀ e', st.2.2 = .error e' → e' = .unimplementedMethod)
    (sgdStep (fun (acc : Except NErr Network) batch =>
      acc >>= fun n => n.updateParameters batch lrRatio regRatio) batchSize)
    hstep (List.range nBatches)
    (shuffle training, List.replicate batchSize default, (.ok net : Except NErr Network))
    (fun e' h' => Except.noConfusion h')
  exact hinv e h

theorem epoch_error_kind (shuffle : DataLabel_Set → DataLabel_Set)
    (evaluation : DataLabel_Set) (nBatches batchSize : ℕ)
    (lrRatio regRatio : ℝ) (nT nE : ℕ)
    (st : DataLabel_Set × Network) (e : NErr)
    (h : Network.epoch shuffle evaluation nBatches batchSize lrRatio regRatio nT nE st
      = .error e) :
    e = .unimplementedMethod ∨ e = .outOfBounds := by
  simp only [Network.epoch] at h
  set res := StochasticGradientDescent.optimize shuffle
    (fun (acc : Except NErr Network) batch =>
      acc >>= fun n => n.updateParameters batch lrRatio regRatio)
    st.1 nBatches batchSize (.ok st.2) with hres
  cases hr : res.2 with
  | error e' =>
    simp only [hr, except_bind_error] at h
    refine Or.inl ((Except.error.inj h) ▸ ?_)
    exact sgd_optimize_netstate_kind shuffle st.1 nBatches batchSize st.2
      lrRatio regRatio e' (by rw [← hres]; exact hr)
  | ok net' =>
    simp only [hr, except_bind_ok] at h
    cases hc1 : net'.calcAccuracyAndCost res.1 0 with
    | error e1 =>
      simp only [hc1, except_bind_error] at h
      exact Or.inr ((Except.error.inj h) ▸ calcAccuracyAndCost_error net' _ 0 e1 hc1)
    | ok trainRes =>
      simp only [hc1, except_bind_ok] at h
      cases hc2 : net'.calcAccuracyAndCost evaluation 0 with
      | error e2 =>
        simp only [hc2, except_bind_error] at h
        exact Or.inr
          ((Except.error.inj h) ▸ calcAccuracyAndCost_error net' evaluation 0 e2 hc2)
      | ok evalRes =>
        simp only [hc2, except_bind_ok] at h
        exact Except.noConfusion h

/-- C5: for a non-empty training set, Network::train fails with a shape
(range/validation) error exactly when the first training sample's feature
length differs from the network's input size or its label length differs
from the last layer's size; the check runs before the first epoch, so in
the mismatch case train returns the error immediately, and when the
shapes agree no later failure is ever a shape error. -/
theorem train_shape_validation (net : Network) (shuffle : DataLabel_Set → DataLabel_Set)
    (training evaluation : DataLabel_Set) (nEpoch batchSize : ℕ) (eta lambda : ℝ)
    (hne : training ≠ []) :
    (training.headI.1.length ≠ net.inputSize →
      net.train shuffle training evaluation nEpoch batchSize eta lambda
        = .error .inputShapeMismatch) ∧
    (training.headI.1.length = net.inputSize →
      training.headI.2.length ≠ net.lastLayerSize →
      net.train shuffle training evaluation nEpoch batchSize eta lambda
        = .error .outputShapeMismatch) ∧
    ((∃ e, net.train shuffle training evaluation nEpoch batchSize eta lambda
          = .error e ∧ (e = .inputShapeMismatch ∨ e = .outputShapeMismatch)) ↔
      (training.headI.1.length ≠ net.inputSize ∨
        training.headI.2.length ≠ net.lastLayerSize)) := by
  have hpart1 : training.headI.1.length ≠ net.inputSize →
      net.train shuffle training evaluation nEpoch batchSize eta lambda
        = .error .inputShapeMismatch := by
    intro h1
    unfold Network.train
    rw [if_pos h1]
  have hpart2 : training.headI.1.length = net.inputSize →
      training.headI.2.length ≠ net.lastLayerSize →
      net.train shuffle training evaluation nEpoch batchSize eta lambda
        = .error .outputShapeMismatch := by
    intro h1 h2
    unfold Network.train
    rw [if_neg (fun hc => hc h1), if_pos h2]
  have hkind : ∀ e, training.headI.1.length = net.inputSize →
      training.headI.2.length = net.lastLayerSize →
      net.train shuffle training evaluation nEpoch batchSize eta lambda = .error e →
      (e = .unimplementedMethod ∨ e = .outOfBounds) := by
    intro e h1 h2 htr
    unfold Network.train at htr
    rw [if_neg (fun hc => hc h1), if_neg (fun hc => hc h2)] at htr
    have hM := except_map_error Prod.snd _ e htr
    exact foldlM_error_kind (fun e => e = .unimplementedMethod ∨ e = .outOfBounds) _
      (fun st b e' hh =>
        epoch_error_kind shuffle evaluation _ batchSize _ _ _ _ st e' hh)
      (List.range nEpoch) (training, net) e hM
  refine ⟨hpart1, hpart2, ?_⟩
  constructor
  · rintro ⟨e, he, hk⟩
    by_contra hc
    push_neg at hc
    obtain ⟨h1, h2⟩ := hc
    have hdis := hkind e h1 h2 he
    rcases hk with hk | hk <;> subst hk <;>
      rcases hdis with h' | h' <;> exact NErr.noConfusion h'
  · intro hor
    by_cases h1 : training.headI.1.length ≠ net.inputSize
    · exact ⟨.inputShapeMismatch, hpart1 h1, Or.inl rfl⟩
    · push_neg at h1
      rcases hor with h | h
      · exact absurd h1 h
      · exact ⟨.outputShapeMismatch, hpart2 h1 h, Or.inr rfl⟩

/-- Witness for C5: a sample with two features against a one-input
network. -/
theorem train_shape_validation_witness :
    (([([(1 : ℝ), 2], [(1 : ℝ)])]).headI.1.length ≠ exampleNet.inputSize →
      exampleNet.train id [([(1 : ℝ), 2], [(1 : ℝ)])] [] 1 1 1 0
        = .error .inputShapeMismatch) ∧
    (([([(1 : ℝ), 2], [(1 : ℝ)])]).headI.1.length = exampleNet.inputSize →
      ([([(1 : ℝ), 2], [(1 : ℝ)])]).headI.2.length ≠ exampleNet.lastLayerSize →
      exampleNet.train id [([(1 : ℝ), 2], [(1 : ℝ)])] [] 1 1 1 0
        = .error .outputShapeMismatch) ∧
    ((∃ e, exampleNet.train id [([(1 : ℝ), 2], [(1 : ℝ)])] [] 1 1 1 0
          = .error e ∧ (e = .inputShapeMismatch ∨ e = .outputShapeMismatch)) ↔
      (([([(1 : ℝ), 2], [(1 : ℝ)])]).headI.1.length ≠ exampleNet.inputSize ∨
        ([([(1 : ℝ), 2], [(1 : ℝ)])]).headI.2.length ≠ exampleNet.lastLayerSize)) :=
  train_shape_validation exampleNet id [([(1 : ℝ), 2], [(1 : ℝ)])] [] 1 1 1 0
    (by simp)

end NeuralNetwork
